import Mathlib

/-!
Verification development for the BasePaint tracker frontend.

The repository contains a wallet-connection hook (`useWallet`), an OpenSea
marketplace client (`useOpenSea`, with two divergent variants: a REST variant
and an SDK variant), and UI components (`CanvasList` etc.).  This file gives a
shallow embedding of the data model and the operations: external services
(OpenSea API, wallet provider) are modelled as explicit response oracles, and
the async orchestration is modelled as pure functions over those oracles.

Modelling conventions:
* JavaScript `undefined`/missing optional fields are `Option.none`.
* Numeric JSON price strings are modelled by their numeric value
  (`Option Nat` for the raw integer amount); `parseFloat(formatUnits raw d)`
  is modelled exactly as the rational `raw / 10 ^ d`.
* JS string truthiness (`if (s)`) is `truthyStr`: `none` and the empty string
  are falsy.
* `try`/`catch` is modelled by explicit outcome constructors on the oracle
  responses (`netThrow` for a thrown fetch, `httpErr` for `!res.ok`).
-/

namespace BPTracker

/-- JS truthiness of an optional string: `undefined`/`null` and `""` are falsy. -/
def truthyStr : Option String → Bool
  | none => false
  | some s => !s.isEmpty

/-- Model of `parseInt(s, 10)` as used on numeric token ids: the longest
leading run of decimal digits, `none` standing for `NaN`. -/
def jsParseIntDec (s : String) : Option Nat :=
  (s.takeWhile Char.isDigit).toNat?

/-- String interpolation of a JS number that may be `NaN`. -/
def dayString : Option Nat → String
  | some n => toString n
  | none => "NaN"

/-- Model of `s.includes(pat)` on strings. -/
def strIncludes (s pat : String) : Bool :=
  decide (List.IsInfix pat.toList s.toList)

/-- A thrown JS error value, as far as the code inspects it. -/
structure JsErr where
  code : Option Int
  message : Option String
  deriving Repr, DecidableEq

/-- Model of `err.message || fallback`: an absent or empty message falls back. -/
def errMessageOr (fallback : String) (e : JsErr) : String :=
  match e.message with
  | none => fallback
  | some m => if m.isEmpty then fallback else m

/-- One owned NFT ("canvas") as held in UI state.  `day` is the result of
`parseInt(tokenId, 10)` (`none` = `NaN`); prices are exact rationals. -/
structure CanvasItem where
  id : String
  day : Option Nat
  imageUrl : String
  lastSale : ℚ
  listPrice : Option ℚ
  bestOffer : ℚ
  isListed : Bool
  bestOfferOrderHash : Option String
  bestOfferProtocolAddress : Option String
  deriving Repr, DecidableEq

/-- Item pushed by the owned-token fetch for a token id (both variants push
the same record shape; optional fields absent). -/
def mkCanvasItem (tokenId : String) : CanvasItem :=
  let day := jsParseIntDec tokenId
  { id := tokenId
    day := day
    imageUrl := "https://basepaint.xyz/api/art/image?day=" ++ dayString day
    lastSale := 0
    listPrice := none
    bestOffer := 0
    isListed := false
    bestOfferOrderHash := none
    bestOfferProtocolAddress := none }

/-! ### REST variant: market-data fetch helpers (`src/hooks/useOpenSea.ts`, REST half) -/

/-- Outcome of a REST `fetch`: the network call threw, the response was not
`res.ok`, or it returned parsed JSON data. -/
inductive RestResp (α : Type) where
  | netThrow
  | httpErr
  | ok (data : α)
  deriving Repr, DecidableEq

/-- The fields of one listing object the code reads:
`listing.price?.current?.value` (here by numeric value, `none` for an absent
or empty string) and `listing.price?.current?.decimals`. -/
structure ListingJson where
  price_value : Option Nat
  price_decimals : Option Nat
  deriving Repr, DecidableEq

/-- Parsed body of `GET /listings/collection/{slug}/best`. -/
structure ListingsBody where
  listings : List ListingJson
  deriving Repr, DecidableEq

/-- The fields of one offer object the code reads. -/
structure OfferJson where
  price_value : Option Nat
  price_decimals : Option Nat
  order_hash : Option String
  protocol_address : Option String
  deriving Repr, DecidableEq

/-- Parsed body of `GET /offers/collection/{slug}/best`. -/
structure OffersBody where
  offers : List OfferJson
  deriving Repr, DecidableEq

/-- Result shape of `fetchBestListing`. -/
structure ListingResult where
  listPrice : Option ℚ
  isListed : Bool
  deriving Repr, DecidableEq

/-- Result shape of `fetchBestOffer`. -/
structure OfferResult where
  bestOffer : ℚ
  orderHash : Option String
  protocolAddress : Option String
  deriving Repr, DecidableEq

/-- `fetchBestListing` (REST variant): returns `{isListed: false}` on a thrown
fetch, a non-ok response, a missing first listing or a falsy raw value;
otherwise parses `raw / 10 ^ decimals` (decimals defaulting to 18). -/
def fetchBestListing (resp : RestResp ListingsBody) : ListingResult :=
  match resp with
  | .netThrow => { listPrice := none, isListed := false }
  | .httpErr => { listPrice := none, isListed := false }
  | .ok data =>
    match data.listings.head? with
    | none => { listPrice := none, isListed := false }
    | some listing =>
      match listing.price_value with
      | none => { listPrice := none, isListed := false }
      | some raw =>
        { listPrice := some ((raw : ℚ) / 10 ^ listing.price_decimals.getD 18)
          isListed := true }

/-- `fetchBestOffer` (REST variant): returns `{bestOffer: 0}` on any failure
or missing data; otherwise the parsed price together with the offer's
`order_hash` and `protocol_address` fields as delivered by the API. -/
def fetchBestOffer (resp : RestResp OffersBody) : OfferResult :=
  match resp with
  | .netThrow => { bestOffer := 0, orderHash := none, protocolAddress := none }
  | .httpErr => { bestOffer := 0, orderHash := none, protocolAddress := none }
  | .ok data =>
    match data.offers.head? with
    | none => { bestOffer := 0, orderHash := none, protocolAddress := none }
    | some offer =>
      match offer.price_value with
      | none => { bestOffer := 0, orderHash := none, protocolAddress := none }
      | some raw =>
        { bestOffer := (raw : ℚ) / 10 ^ offer.price_decimals.getD 18
          orderHash := offer.order_hash
          protocolAddress := offer.protocol_address }

/-- Responses of the two per-token REST endpoints for one token id. -/
structure RestTokenResp where
  listings : RestResp ListingsBody
  offers : RestResp OffersBody

/-- Oracle giving, per token id, the responses of the market-data endpoints. -/
def RestMarketEnv : Type := String → RestTokenResp

/-- One iteration of the REST enrichment batch body: replace the item's
market-data fields from `fetchBestListing`/`fetchBestOffer`, all other fields
kept by the object spread. -/
def enrichItemRest (env : RestMarketEnv) (item : CanvasItem) : CanvasItem :=
  let listingData := fetchBestListing (env item.id).listings
  let offerData := fetchBestOffer (env item.id).offers
  { item with
    listPrice := listingData.listPrice
    isListed := listingData.isListed
    bestOffer := offerData.bestOffer
    bestOfferOrderHash := offerData.orderHash
    bestOfferProtocolAddress := offerData.protocolAddress }

/-! ### SDK variant: per-token market data (`fetchTokenMarketData`) -/

/-- Outcome of an SDK API call: thrown, or returned a value. -/
inductive SdkResp (α : Type) where
  | thrown
  | ok (a : α)
  deriving Repr, DecidableEq

/-- The fields of the SDK best-offer object the code reads. -/
structure SdkOffer where
  price_value : Option Nat
  price_decimals : Option Nat
  order_hash : Option String
  deriving Repr, DecidableEq

/-- The fields of the SDK best-listing object the code reads. -/
structure SdkListing where
  price_value : Option Nat
  price_decimals : Option Nat
  deriving Repr, DecidableEq

/-- SDK responses for one token: `getBestOffer`/`getBestListing` results
(`ok none` models a nullish return) plus whether the surrounding
`buildReadSDK` setup itself throws. -/
structure SdkTokenResp where
  outerThrow : Bool
  offer : SdkResp (Option SdkOffer)
  listing : SdkResp (Option SdkListing)

/-- Oracle giving, per token id, the SDK responses. -/
def SdkMarketEnv : Type := String → SdkTokenResp

/-- Result shape of `fetchTokenMarketData` (note: no protocol address). -/
structure TokenMarketData where
  bestOffer : ℚ
  listPrice : Option ℚ
  isListed : Bool
  bestOfferOrderHash : Option String
  deriving Repr, DecidableEq

/-- `fetchTokenMarketData` (SDK variant): best offer taken only when
`price.decimals` is present and `price.value` truthy, in which case
`order_hash` is also recorded; listing analogously; every SDK throw degrades
to the zero/absent defaults; an outer setup throw yields
`{bestOffer: 0, isListed: false}`. -/
def fetchTokenMarketData (resp : SdkTokenResp) : TokenMarketData :=
  if resp.outerThrow then
    { bestOffer := 0, listPrice := none, isListed := false, bestOfferOrderHash := none }
  else
    let offerPart :=
      match resp.offer with
      | .thrown => ((0 : ℚ), (none : Option String))
      | .ok none => ((0 : ℚ), (none : Option String))
      | .ok (some o) =>
        match o.price_decimals, o.price_value with
        | some d, some raw => (((raw : ℚ) / 10 ^ d), o.order_hash)
        | _, _ => ((0 : ℚ), (none : Option String))
    let listingPart :=
      match resp.listing with
      | .thrown => ((none : Option ℚ), false)
      | .ok none => ((none : Option ℚ), false)
      | .ok (some l) =>
        match l.price_decimals, l.price_value with
        | some d, some raw => ((some ((raw : ℚ) / 10 ^ d)), true)
        | _, _ => ((none : Option ℚ), false)
    { bestOffer := offerPart.1
      listPrice := listingPart.1
      isListed := listingPart.2
      bestOfferOrderHash := offerPart.2 }

/-- One iteration of the SDK enrichment batch body: the object spread replaces
`bestOffer`, `listPrice`, `isListed` and `bestOfferOrderHash` only — the SDK
variant never writes `bestOfferProtocolAddress`. -/
def enrichItemSdk (env : SdkMarketEnv) (item : CanvasItem) : CanvasItem :=
  let data := fetchTokenMarketData (env item.id)
  { item with
    bestOffer := data.bestOffer
    listPrice := data.listPrice
    isListed := data.isListed
    bestOfferOrderHash := data.bestOfferOrderHash }

/-! ### Batched enrichment loop (`enrichWithMarketData`, both variants)

The loop `for (let i = 0; i < enriched.length; i += BATCH)` awaits one batch of
per-item fetches, writes each result back at its original index, and then calls
`onProgress` with a copy of the whole array.  Its observable behaviour is
captured by chunking the input into batches and folding: after each batch the
snapshot consists of the already-enriched items followed by the untouched
remainder. -/

/-- Split a list into consecutive chunks of size `B` (the last one possibly
shorter); for `B = 0` singleton chunks, mirroring that the loop still advances. -/
def chunksOf (B : Nat) : List α → List (List α)
  | [] => []
  | a :: l => (a :: l.take (B - 1)) :: chunksOf B (l.drop (B - 1))
termination_by l => l.length
decreasing_by
  simp only [List.length_drop, List.length_cons]
  omega

/-- Core of `enrichWithMarketData`: process the pending chunks in order; after
each chunk emit a snapshot (the enriched items so far followed by the pending
remainder) and finally return the fully enriched list. -/
def enrichGo (f : CanvasItem → CanvasItem) :
    List (List CanvasItem) → List CanvasItem → List (List CanvasItem) × List CanvasItem
  | [], done => ([], done)
  | c :: cs, done =>
    let done' := done ++ c.map f
    let r := enrichGo f cs done'
    ((done' ++ cs.flatten) :: r.1, r.2)

/-- `enrichWithMarketData` of the REST variant: batch size 4, per-item update
`enrichItemRest`.  First component: the snapshots passed to `onProgress`, in
order; second component: the returned list. -/
def enrichWithMarketDataRest (env : RestMarketEnv) (items : List CanvasItem) :
    List (List CanvasItem) × List CanvasItem :=
  enrichGo (enrichItemRest env) (chunksOf 4 items) []

/-- `enrichWithMarketData` of the SDK variant: batch size 5, per-item update
`enrichItemSdk`. -/
def enrichWithMarketDataSdk (env : SdkMarketEnv) (items : List CanvasItem) :
    List (List CanvasItem) × List CanvasItem :=
  enrichGo (enrichItemSdk env) (chunksOf 5 items) []

/-! ### Wallet hook (`useWallet`): `connect` and `disconnect` -/

/-- Base mainnet chain id constant. -/
def BASE_CHAIN_ID : String := "0x2105"

/-- Result of one provider `request` call: resolved with a value or rejected
with an error. -/
inductive RpcResult (α : Type) where
  | ok (a : α)
  | err (e : JsErr)
  deriving Repr, DecidableEq

/-- The provider methods `connect`/`disconnect` can issue. -/
inductive RpcMethod where
  | requestAccounts
  | chainId
  | switchChain
  | addChain
  deriving Repr, DecidableEq

/-- The behaviour of the injected provider during one `connect` call: each
method is called at most once, so one response per method suffices. -/
structure ProviderBehavior where
  requestAccounts : RpcResult (List String)
  chainId : RpcResult String
  switchChain : RpcResult Unit
  addChain : RpcResult Unit

/-- The hook's local state `{address, isConnecting, error}`. -/
structure WalletState where
  address : Option String
  isConnecting : Bool
  error : Option String
  deriving Repr, DecidableEq

/-- `connect()`: sets `isConnecting`, clears `error`; aborts with a message if
no provider; requests accounts, records the first account if any; checks
`eth_chainId` and, when not Base, attempts `wallet_switchEthereumChain`,
falling back to `wallet_addEthereumChain` exactly on error code 4902 (any
other switch error is swallowed by the inner catch); every error reaching the
outer catch sets `error` to `err.message || 'Failed to connect'`; `finally`
clears `isConnecting`.  Returns the final state and the ordered trace of
provider requests. -/
def connect (prov : Option ProviderBehavior) (s0 : WalletState) :
    WalletState × List RpcMethod :=
  let s := { s0 with isConnecting := true, error := none }
  match prov with
  | none =>
    ({ s with
        error := some "No wallet found. Open in a crypto-enabled browser.",
        isConnecting := false }, [])
  | some p =>
    match p.requestAccounts with
    | .err e =>
      ({ s with
          error := some (errMessageOr "Failed to connect" e),
          isConnecting := false }, [.requestAccounts])
    | .ok accounts =>
      let s := if accounts.length > 0 then { s with address := accounts.head? } else s
      match p.chainId with
      | .err e =>
        ({ s with
            error := some (errMessageOr "Failed to connect" e),
            isConnecting := false }, [.requestAccounts, .chainId])
      | .ok cid =>
        if cid = BASE_CHAIN_ID then
          ({ s with isConnecting := false }, [.requestAccounts, .chainId])
        else
          match p.switchChain with
          | .ok _ =>
            ({ s with isConnecting := false },
              [.requestAccounts, .chainId, .switchChain])
          | .err se =>
            if se.code = some 4902 then
              match p.addChain with
              | .ok _ =>
                ({ s with isConnecting := false },
                  [.requestAccounts, .chainId, .switchChain, .addChain])
              | .err ae =>
                ({ s with
                    error := some (errMessageOr "Failed to connect" ae),
                    isConnecting := false },
                  [.requestAccounts, .chainId, .switchChain, .addChain])
            else
              ({ s with isConnecting := false },
                [.requestAccounts, .chainId, .switchChain])

/-- `disconnect()`: `setAddress(null)` and nothing else; no provider calls. -/
def disconnect (s : WalletState) : WalletState × List RpcMethod :=
  ({ s with address := none }, [])

/-! ### `CanvasList` component: accept-offer handler and listing update -/

/-- A toast event emitted via `onShowToast(msg, type)`. -/
structure ToastEvent where
  msg : String
  isError : Bool
  deriving Repr, DecidableEq

/-- External effects the accept handler can perform beyond toasts. -/
inductive ExtCall where
  | connectCall
  | fulfillOfferCall (orderHash : String) (protocolAddress : String)
  | openUrlCall (url : String)
  deriving Repr, DecidableEq

/-- Seaport v1.6 address hard-coded in `handleAcceptConfirm`. -/
def SEAPORT_BASE : String := "0x0000000000000068F116a894984e2DB1123eB395"

/-- Environment of one `handleAcceptConfirm` run: whether a wallet provider is
available and the outcome of the `fulfillOffer` call (resolved tx hash or
rejection). -/
structure AcceptEnv where
  providerAvailable : Bool
  fulfillResult : RpcResult String

/-- `handleAcceptConfirm` (real `CanvasList`, `src/unnamed/part_004`): guards
(modal/address present, truthy `bestOfferOrderHash`), then fulfills the offer
via the SDK, removing the sold item and opening the explorer URL on success;
a rejection is shown as a "cancelled"/failure toast.  Returns the emitted
toasts, the external calls made, and the resulting items state. -/
def handleAcceptConfirm (env : AcceptEnv) (address : Option String)
    (activeModal : Option CanvasItem) (items : List CanvasItem) :
    List ToastEvent × List ExtCall × List CanvasItem :=
  match activeModal, address with
  | none, none => ([], [.connectCall], items)
  | none, some _ => ([], [], items)
  | some _, none => ([], [.connectCall], items)
  | some item, some _ =>
    if truthyStr item.bestOfferOrderHash = false then
      ([{ msg := "No valid offer found", isError := true }], [], items)
    else if env.providerAvailable = false then
      ([{ msg := "No wallet provider found", isError := true }], [], items)
    else
      let orderHash := item.bestOfferOrderHash.getD ""
      match env.fulfillResult with
      | .ok txHash =>
        let items' := items.filter (fun it => it.id ≠ item.id)
        let toasts := [{ msg := "Sold BasePaint #" ++ dayString item.day ++ " for " ++ toString item.bestOffer ++ " ETH \u2713", isError := false }]
        let calls := [ExtCall.fulfillOfferCall orderHash SEAPORT_BASE] ++
          (if txHash.isEmpty then [] else
            [ExtCall.openUrlCall ("https://basescan.org/tx/" ++ txHash)])
        (toasts, calls, items')
      | .err e =>
        let msg :=
          if strIncludes (e.message.getD "") "rejected" then
            "Transaction cancelled"
          else errMessageOr "Failed to accept offer" e
        ([{ msg := msg, isError := true }],
          [ExtCall.fulfillOfferCall orderHash SEAPORT_BASE], items)

/-- The items update performed by `handleListConfirm` after a successful
listing: map over items, replacing the listed item's `isListed`/`listPrice`
fields only. -/
def applyListingUpdate (items : List CanvasItem) (id : String) (price : ℚ) :
    List CanvasItem :=
  items.map (fun it =>
    if it.id = id then { it with isListed := true, listPrice := some price } else it)

/-! ### Owned-token fetch (`fetchNFTsByOwner` REST / `fetchOwnedBasePaints` SDK)

Both variants loop over paginated responses: request a page, append its
tokens, and request a further page exactly while the response carried a
(truthy) next cursor and the accumulated count is below the cap.  The server
is an oracle from requests to pages; the loop may in principle run forever
(pages with cursors and no new items), so the model takes a fuel bound and
returns `none` when it is exhausted. -/

/-- Tracked collection contract address (`constants.ts`). -/
def BASEPAINT_NFT_CONTRACT : String := "0xba5e05cb26b78eda3a2f8e3b3814726305dcac83"

/-- One NFT object of a page, as far as the code reads it. -/
structure NftJson where
  identifier : String
  contract : Option String
  deriving Repr, DecidableEq

/-- One page response: whether the HTTP/SDK call succeeded, the `nfts` array
and the `next` cursor. -/
structure NftPage where
  ok : Bool
  nfts : List NftJson
  next : Option String
  deriving Repr, DecidableEq

/-- One REST page request as built by `fetchNFTsByOwner`: the `limit` and
`collection` query params and the optional `next` cursor param. -/
structure NftRequest where
  limit : Nat
  collection : String
  next : Option String
  deriving Repr, DecidableEq

instance : Inhabited NftRequest := ⟨⟨0, "", none⟩⟩

/-- Loop body of `fetchNFTsByOwner` (REST): each request uses `limit=200` and
`collection=basepaint`; a non-ok response throws; otherwise all of the page's
nfts are pushed (the API performs the collection filtering) and the loop
continues exactly while `next` is truthy and fewer than 500 results have
accumulated.  Returns the items together with the issued requests, `.error`
for a thrown iteration, `none` when fuel runs out. -/
def fetchNFTsByOwnerGo (srv : NftRequest → NftPage) :
    Nat → Option String → List CanvasItem →
    Option (Except (List NftRequest) (List CanvasItem × List NftRequest))
  | 0, _, _ => none
  | fuel + 1, cursor, acc =>
    let req : NftRequest := { limit := 200, collection := "basepaint", next := cursor }
    let page := srv req
    if page.ok = false then some (.error [req])
    else
      let acc' := acc ++ page.nfts.map (fun n => mkCanvasItem n.identifier)
      if truthyStr page.next && decide (acc'.length < 500) then
        match fetchNFTsByOwnerGo srv fuel page.next acc' with
        | none => none
        | some (.error reqs) => some (.error (req :: reqs))
        | some (.ok (items, reqs)) => some (.ok (items, req :: reqs))
      else some (.ok (acc', [req]))

/-- `fetchNFTsByOwner` (REST): run the pagination loop from no cursor and an
empty accumulator. -/
def fetchNFTsByOwner (srv : NftRequest → NftPage) (fuel : Nat) :
    Option (Except (List NftRequest) (List CanvasItem × List NftRequest)) :=
  fetchNFTsByOwnerGo srv fuel none []

/-- One SDK page request: `getNFTsByAccount(address, 50, cursor, Chain.Base)`. -/
structure SdkNftRequest where
  limit : Nat
  next : Option String
  deriving Repr, DecidableEq

instance : Inhabited SdkNftRequest := ⟨⟨0, none⟩⟩

/-- The client-side collection filter of the SDK variant:
`nft.contract?.toLowerCase() === BASEPAINT_NFT_CONTRACT.toLowerCase()`. -/
def isBasePaintNft (n : NftJson) : Bool :=
  n.contract.map String.toLower == some BASEPAINT_NFT_CONTRACT.toLower

/-- Loop body of the SDK `fetchOwnedBasePaints`: pages of `limit=50`, only
nfts of the BasePaint contract are pushed, and a further page is requested
exactly while `next` is truthy and fewer than 200 results have accumulated
(a thrown SDK call aborts the loop as `.error`). -/
def fetchOwnedBasePaintsGo (srv : SdkNftRequest → SdkResp NftPage) :
    Nat → Option String → List CanvasItem →
    Option (Except (List SdkNftRequest) (List CanvasItem × List SdkNftRequest))
  | 0, _, _ => none
  | fuel + 1, cursor, acc =>
    let req : SdkNftRequest := { limit := 50, next := cursor }
    match srv req with
    | .thrown => some (.error [req])
    | .ok page =>
      let acc' := acc ++ (page.nfts.filter isBasePaintNft).map
        (fun n => mkCanvasItem n.identifier)
      if truthyStr page.next && decide (acc'.length < 200) then
        match fetchOwnedBasePaintsGo srv fuel page.next acc' with
        | none => none
        | some (.error reqs) => some (.error (req :: reqs))
        | some (.ok (items, reqs)) => some (.ok (items, req :: reqs))
      else some (.ok (acc', [req]))

/-- `fetchOwnedBasePaints` (SDK): run the pagination loop from no cursor. -/
def fetchOwnedBasePaints (srv : SdkNftRequest → SdkResp NftPage) (fuel : Nat) :
    Option (Except (List SdkNftRequest) (List CanvasItem × List SdkNftRequest)) :=
  fetchOwnedBasePaintsGo srv fuel none []

/-! ### Completion order within a batch

Inside one batch every concurrent task reads only its own index and writes
only its own index (`enriched[i + idx] = { ...item-at-i+idx, ...fields }`).
`runUpdates` executes such per-slot updates in an arbitrary completion order;
when the order is a permutation of all slots the outcome is the pointwise map,
so the completion order is irrelevant. -/

/-- Apply the per-slot update at index `j`: read the slot, write back `f` of
it (out-of-range indices are untouched). -/
def stepUpdate (f : α → α) (l : List α) (j : Nat) : List α :=
  match l[j]? with
  | none => l
  | some a => l.set j (f a)

/-- Execute the per-slot updates of one batch in the given completion order. -/
def runUpdates (f : α → α) (l : List α) (order : List Nat) : List α :=
  order.foldl (stepUpdate f) l

/-! ### Heap model for the no-mutation claim

Aliasing facts (the input array and its item objects are not mutated, each
progress snapshot is a freshly allocated array) need an explicit heap: object
and array references are allocation indices, the heap maps them to contents.
`enrichWithMarketData` first copies the input array (`[...items]`), then per
slot allocates a replacement object (object spread) and writes its reference
into the copy, and after each batch allocates a snapshot array (`[...enriched]`). -/

structure Heap where
  nextRef : Nat
  objAt : Nat → CanvasItem
  arrAt : Nat → List Nat

/-- Allocate a fresh object. -/
def allocObj (h : Heap) (it : CanvasItem) : Nat × Heap :=
  (h.nextRef,
    { nextRef := h.nextRef + 1
      objAt := fun r => if r = h.nextRef then it else h.objAt r
      arrAt := h.arrAt })

/-- Allocate a fresh array with the given contents. -/
def allocArr (h : Heap) (contents : List Nat) : Nat × Heap :=
  (h.nextRef,
    { nextRef := h.nextRef + 1
      objAt := h.objAt
      arrAt := fun r => if r = h.nextRef then contents else h.arrAt r })

/-- Overwrite the contents of the array at `r`. -/
def setArr (h : Heap) (r : Nat) (contents : List Nat) : Heap :=
  { h with arrAt := fun r' => if r' = r then contents else h.arrAt r' }

/-- Process one slot of a batch: read the object reference of slot `j`,
allocate the updated object, write its reference back into slot `j` of the
working array. -/
def enrichHeapSlot (f : CanvasItem → CanvasItem) (arrRef : Nat)
    (h : Heap) (j : Nat) : Heap :=
  match (h.arrAt arrRef)[j]? with
  | none => h
  | some objRef =>
    let upd := allocObj h (f (h.objAt objRef))
    setArr upd.2 arrRef ((upd.2.arrAt arrRef).set j upd.1)

/-- Process the slots of one batch in order. -/
def enrichHeapBatch (f : CanvasItem → CanvasItem) (arrRef : Nat)
    (h : Heap) (idxs : List Nat) : Heap :=
  idxs.foldl (enrichHeapSlot f arrRef) h

/-- Process the batches in order, allocating a snapshot array after each. -/
def enrichHeapGo (f : CanvasItem → CanvasItem) (arrRef : Nat) :
    List (List Nat) → Heap → Heap × List Nat
  | [], h => (h, [])
  | b :: bs, h =>
    let h1 := enrichHeapBatch f arrRef h b
    let snap := allocArr h1 (h1.arrAt arrRef)
    let r := enrichHeapGo f arrRef bs snap.2
    (r.1, snap.1 :: r.2)

/-- Heap-level `enrichWithMarketData`, generic in the per-item update and the
batch size: copy the input array, process index batches, return the final
heap, the reference of the returned array and the snapshot references. -/
def enrichWithMarketDataHeap (f : CanvasItem → CanvasItem) (B : Nat)
    (h : Heap) (inputRef : Nat) : Heap × Nat × List Nat :=
  let copied := allocArr h (h.arrAt inputRef)
  let batches := chunksOf B (List.range (h.arrAt inputRef).length)
  let r := enrichHeapGo f copied.1 batches copied.2
  (r.1, copied.1, r.2)

/-- Heap-level REST enrichment (batch size 4). -/
def enrichHeapRest (env : RestMarketEnv) (h : Heap) (inputRef : Nat) :
    Heap × Nat × List Nat :=
  enrichWithMarketDataHeap (enrichItemRest env) 4 h inputRef

/-- Heap-level SDK enrichment (batch size 5). -/
def enrichHeapSdk (env : SdkMarketEnv) (h : Heap) (inputRef : Nat) :
    Heap × Nat × List Nat :=
  enrichWithMarketDataHeap (enrichItemSdk env) 5 h inputRef

/-- Items contributed by the response to one REST page request. -/
def restPageItems (srv : NftRequest → NftPage) (r : NftRequest) : List CanvasItem :=
  (srv r).nfts.map (fun n => mkCanvasItem n.identifier)

/-- Results accumulated over a sequence of REST page requests. -/
def restAccCount (srv : NftRequest → NftPage) (reqs : List NftRequest) : Nat :=
  (reqs.map (fun r => (restPageItems srv r).length)).sum

/-- The page of an SDK response (a thrown response stands for no page). -/
def sdkRespPage (resp : SdkResp NftPage) : NftPage :=
  match resp with
  | .thrown => { ok := false, nfts := [], next := none }
  | .ok p => p

/-- Items contributed by the response to one SDK page request (after the
client-side collection filter). -/
def sdkPageItems (srv : SdkNftRequest → SdkResp NftPage) (r : SdkNftRequest) :
    List CanvasItem :=
  ((sdkRespPage (srv r)).nfts.filter isBasePaintNft).map (fun n => mkCanvasItem n.identifier)

/-- Results accumulated over a sequence of SDK page requests. -/
def sdkAccCount (srv : SdkNftRequest → SdkResp NftPage) (reqs : List SdkNftRequest) : Nat :=
  (reqs.map (fun r => (sdkPageItems srv r).length)).sum

/-! ### Invariant predicates and concrete test fixtures -/

/-- Claimed invariant: `bestOfferOrderHash` and `bestOfferProtocolAddress`
present together or not at all. -/
def offerPairInv (it : CanvasItem) : Prop :=
  it.bestOfferOrderHash.isSome = it.bestOfferProtocolAddress.isSome

/-- Claimed invariant: `isListed = true` implies `listPrice` is defined. -/
def listedInv (it : CanvasItem) : Prop :=
  it.isListed = true → it.listPrice.isSome = true

/-- Well-formedness of a best-offer response: the first offer, when it has a
price value, carries `order_hash` and `protocol_address` together. -/
def offerRespPaired (resp : RestResp OffersBody) : Prop :=
  ∀ o, resp = .ok o → ∀ offer, o.offers.head? = some offer →
    offer.price_value.isSome = true →
    offer.order_hash.isSome = offer.protocol_address.isSome

/-- REST market environment where every per-token fetch throws. -/
def envRestNone : RestMarketEnv := fun _ => ⟨.netThrow, .netThrow⟩

/-- SDK market environment where both SDK calls throw. -/
def envSdkNone : SdkMarketEnv := fun _ => ⟨false, .thrown, .thrown⟩

/-- REST market environment of the worked example: token 701 has a best
listing of 0.025 ETH (raw `25000000000000000`, 18 decimals) and no offer;
token 703 has neither listing nor offer. -/
def envExample : RestMarketEnv := fun tokenId =>
  if tokenId = "701" then
    { listings := .ok ⟨[⟨some 25000000000000000, some 18⟩]⟩, offers := .ok ⟨[]⟩ }
  else
    { listings := .ok ⟨[]⟩, offers := .ok ⟨[]⟩ }

/-- SDK market environment where the best offer carries an order hash. -/
def envSdkOffer : SdkMarketEnv := fun _ =>
  { outerThrow := false
    offer := .ok (some ⟨some 100000000000000000, some 18, some "0xoffer"⟩)
    listing := .ok none }

/-- Fresh wallet state before any interaction. -/
def initialWalletState : WalletState :=
  { address := none, isConnecting := false, error := none }

/-- Provider on Ethereum mainnet that accepts the switch request only after
being asked to add the chain (switch rejects with code 4902). -/
def provSwitch4902 : ProviderBehavior :=
  { requestAccounts := .ok ["0xabc"]
    chainId := .ok "0x1"
    switchChain := .err ⟨some 4902, some "Unrecognized chain ID"⟩
    addChain := .ok () }

/-- Provider on Ethereum mainnet whose user rejects the chain switch
(code 4001): the failure is swallowed by the inner catch. -/
def provSwitchRejected : ProviderBehavior :=
  { requestAccounts := .ok ["0xabc"]
    chainId := .ok "0x1"
    switchChain := .err ⟨some 4001, some "User rejected the request."⟩
    addChain := .ok () }

/-- Server answering every owned-NFT page request with a single token and no
further cursor. -/
def srvOnePage : NftRequest → NftPage :=
  fun _ => { ok := true, nfts := [⟨"701", some BASEPAINT_NFT_CONTRACT⟩], next := none }

/-- SDK server answering every page request with a single BasePaint token. -/
def srvSdkOnePage : SdkNftRequest → SdkResp NftPage :=
  fun _ => .ok { ok := true, nfts := [⟨"701", some BASEPAINT_NFT_CONTRACT⟩], next := none }

/-- Accept-handler environment with a provider and a successful fulfillment. -/
def acceptEnvOk : AcceptEnv :=
  { providerAvailable := true, fulfillResult := .ok "0xtxhash" }

/-- A heap with one allocated input array holding two item objects. -/
def heapTwoItems : Heap :=
  { nextRef := 3
    objAt := fun r => if r = 1 then mkCanvasItem "701" else mkCanvasItem "703"
    arrAt := fun _ => [1, 2] }

/-! ## Helper lemmas -/

theorem chunksOf_nil (B : Nat) : chunksOf B ([] : List α) = [] := by
  rw [chunksOf]

theorem chunksOf_cons (B : Nat) (a : α) (l : List α) :
    chunksOf B (a :: l) = (a :: l.take (B - 1)) :: chunksOf B (l.drop (B - 1)) := by
  rw [chunksOf]

theorem chunksOf_flatten (B : Nat) (l : List α) : (chunksOf B l).flatten = l := by
  induction l using chunksOf.induct B with
  | case1 => rw [chunksOf_nil]; rfl
  | case2 a l ih =>
    rw [chunksOf_cons, List.flatten_cons, ih, List.cons_append, List.take_append_drop]

theorem chunksOf_length (B : Nat) (hB : 0 < B) (l : List α) :
    (chunksOf B l).length = (l.length + B - 1) / B := by
  induction l using chunksOf.induct B with
  | case1 =>
    rw [chunksOf_nil]
    simp only [List.length_nil]
    rw [Nat.div_eq_of_lt (by omega)]
  | case2 a l ih =>
    rw [chunksOf_cons, List.length_cons, ih]
    simp only [List.length_drop, List.length_cons]
    rcases le_or_lt (B - 1) l.length with h | h
    · have h1 : l.length - (B - 1) + B - 1 = l.length := by omega
      have h2 : l.length + 1 + B - 1 = l.length + B := by omega
      rw [h1, h2, Nat.add_div_right _ hB]
    · have h1 : l.length - (B - 1) = 0 := by omega
      have h2 : l.length + 1 + B - 1 = l.length + B := by omega
      rw [h1, h2]
      have h3 : (0 + B - 1) / B = 0 := Nat.div_eq_of_lt (by omega)
      have h4 : (l.length + B) / B = 1 := by
        rw [Nat.add_div_right _ hB, Nat.div_eq_of_lt (by omega)]
      omega

theorem chunksOf_take_flatten (B : Nat) (hB : 0 < B) (l : List α) (k : Nat) :
    ((chunksOf B l).take k).flatten = l.take (k * B) := by
  induction l using chunksOf.induct B generalizing k with
  | case1 =>
    rw [chunksOf_nil]
    simp
  | case2 a l ih =>
    cases k with
    | zero => simp
    | succ k =>
      have harith : (k + 1) * B = ((B - 1) + k * B) + 1 := by
        have hmul : (k + 1) * B = k * B + B := by ring
        omega
      rw [chunksOf_cons, List.take_succ_cons, List.flatten_cons, ih, harith,
        List.take_succ_cons, List.take_add]
      simp

theorem chunksOf_drop_flatten (B : Nat) (hB : 0 < B) (l : List α) (k : Nat) :
    ((chunksOf B l).drop k).flatten = l.drop (k * B) := by
  induction l using chunksOf.induct B generalizing k with
  | case1 =>
    rw [chunksOf_nil]
    simp
  | case2 a l ih =>
    cases k with
    | zero =>
      simpa using chunksOf_flatten B (a :: l)
    | succ k =>
      have harith : (k + 1) * B = (k * B + (B - 1)) + 1 := by
        have hmul : (k + 1) * B = k * B + B := by ring
        omega
      rw [chunksOf_cons, List.drop_succ_cons, ih, List.drop_drop, harith,
        List.drop_succ_cons]
      congr 1
      omega

theorem enrichGo_snapshots_length (f : CanvasItem → CanvasItem)
    (cs : List (List CanvasItem)) (done : List CanvasItem) :
    (enrichGo f cs done).1.length = cs.length := by
  induction cs generalizing done with
  | nil => rfl
  | cons c cs ih => simp [enrichGo, ih]

theorem enrichGo_result (f : CanvasItem → CanvasItem)
    (cs : List (List CanvasItem)) (done : List CanvasItem) :
    (enrichGo f cs done).2 = done ++ cs.flatten.map f := by
  induction cs generalizing done with
  | nil => simp [enrichGo]
  | cons c cs ih => simp [enrichGo, ih]

theorem enrichGo_snapshot_get (f : CanvasItem → CanvasItem)
    (cs : List (List CanvasItem)) (done : List CanvasItem) (k : Nat) :
    (enrichGo f cs done).1[k]? =
      (if k < cs.length then
        some (done ++ ((cs.take (k + 1)).flatten).map f ++ (cs.drop (k + 1)).flatten)
      else none) := by
  induction cs generalizing done k with
  | nil => simp [enrichGo]
  | cons c cs ih =>
    cases k with
    | zero =>
      simp [enrichGo, List.flatten_cons]
    | succ k =>
      simp only [enrichGo, List.getElem?_cons_succ, ih, List.take_succ_cons,
        List.drop_succ_cons, List.flatten_cons, List.length_cons]
      by_cases hk : k < cs.length
      · simp [hk, Nat.succ_lt_succ hk, List.map_append, List.append_assoc]
      · simp [hk, fun h => hk (Nat.lt_of_succ_lt_succ h)]

theorem stepUpdate_length (f : α → α) (l : List α) (j : Nat) :
    (stepUpdate f l j).length = l.length := by
  unfold stepUpdate
  cases h : l[j]? with
  | none => rfl
  | some a => simp

theorem stepUpdate_get_self (f : α → α) (l : List α) (j : Nat) :
    (stepUpdate f l j)[j]? = (l[j]?).map f := by
  unfold stepUpdate
  cases h : l[j]? with
  | none => simp [h]
  | some a =>
    have hj : j < l.length := (List.getElem?_eq_some_iff.mp h).1
    simp [List.getElem?_set_self', h]

theorem stepUpdate_get_other (f : α → α) (l : List α) (i j : Nat) (hij : i ≠ j) :
    (stepUpdate f l j)[i]? = l[i]? := by
  unfold stepUpdate
  cases h : l[j]? with
  | none => rfl
  | some a => simp [List.getElem?_set_ne (fun he => hij he.symm)]

theorem runUpdates_get (f : α → α) (l : List α) (order : List Nat)
    (hnd : order.Nodup) (i : Nat) :
    (runUpdates f l order)[i]? =
      if i ∈ order then (l[i]?).map f else l[i]? := by
  induction order generalizing l with
  | nil => simp [runUpdates]
  | cons j rest ih =>
    have hj : j ∉ rest := (List.nodup_cons.mp hnd).1
    have hrest : rest.Nodup := (List.nodup_cons.mp hnd).2
    show (runUpdates f (stepUpdate f l j) rest)[i]? = _
    rw [ih (stepUpdate f l j) hrest]
    by_cases hij : i = j
    · subst hij
      simp [hj, stepUpdate_get_self]
    · rw [stepUpdate_get_other f l i j hij]
      simp [List.mem_cons, hij]

theorem runUpdates_length (f : α → α) (l : List α) (order : List Nat) :
    (runUpdates f l order).length = l.length := by
  induction order generalizing l with
  | nil => rfl
  | cons j rest ih =>
    show (runUpdates f (stepUpdate f l j) rest).length = _
    rw [ih, stepUpdate_length]

/-- A batch executed in any completion order covering each slot exactly once
produces the pointwise map. -/
theorem runUpdates_perm_eq_map (f : α → α) (l : List α) (order : List Nat)
    (hperm : order.Perm (List.range l.length)) :
    runUpdates f l order = l.map f := by
  have hnd : order.Nodup := hperm.nodup_iff.mpr (List.nodup_range _)
  apply List.ext_getElem?
  intro i
  rw [runUpdates_get f l order hnd i, List.getElem?_map]
  by_cases hi : i < l.length
  · have hmem : i ∈ order := hperm.mem_iff.mpr (List.mem_range.mpr hi)
    simp [hmem]
  · have hmem : i ∉ order := fun h =>
      hi (List.mem_range.mp (hperm.mem_iff.mp h))
    have hnone : l[i]? = none := List.getElem?_eq_none (by omega)
    simp [hmem, hnone]

theorem enrichHeapSlot_frame (f : CanvasItem → CanvasItem) (arrRef n0 : Nat)
    (h : Heap) (j : Nat) (hn : n0 ≤ h.nextRef) (ha : n0 ≤ arrRef) :
    n0 ≤ (enrichHeapSlot f arrRef h j).nextRef ∧
    ∀ r, r < n0 → (enrichHeapSlot f arrRef h j).objAt r = h.objAt r ∧
      (enrichHeapSlot f arrRef h j).arrAt r = h.arrAt r := by
  unfold enrichHeapSlot
  cases hj : (h.arrAt arrRef)[j]? with
  | none => exact ⟨hn, fun r _ => ⟨rfl, rfl⟩⟩
  | some objRef =>
    refine ⟨by simp [allocObj, setArr]; omega, fun r hr => ⟨?_, ?_⟩⟩
    · simp only [allocObj, setArr]
      have : r ≠ h.nextRef := by omega
      simp [this]
    · simp only [allocObj, setArr]
      have : r ≠ arrRef := by omega
      simp [this]

theorem enrichHeapBatch_frame (f : CanvasItem → CanvasItem) (arrRef n0 : Nat)
    (idxs : List Nat) (h : Heap) (hn : n0 ≤ h.nextRef) (ha : n0 ≤ arrRef) :
    n0 ≤ (enrichHeapBatch f arrRef h idxs).nextRef ∧
    ∀ r, r < n0 → (enrichHeapBatch f arrRef h idxs).objAt r = h.objAt r ∧
      (enrichHeapBatch f arrRef h idxs).arrAt r = h.arrAt r := by
  induction idxs generalizing h with
  | nil => exact ⟨hn, fun r _ => ⟨rfl, rfl⟩⟩
  | cons j rest ih =>
    have hstep := enrichHeapSlot_frame f arrRef n0 h j hn ha
    have hrest := ih (enrichHeapSlot f arrRef h j) hstep.1
    have hun : enrichHeapBatch f arrRef h (j :: rest) =
        enrichHeapBatch f arrRef (enrichHeapSlot f arrRef h j) rest := rfl
    rw [hun]
    refine ⟨hrest.1, fun r hr => ?_⟩
    have h1 := hrest.2 r hr
    have h2 := hstep.2 r hr
    exact ⟨h1.1.trans h2.1, h1.2.trans h2.2⟩

theorem enrichHeapGo_frame (f : CanvasItem → CanvasItem) (arrRef n0 : Nat)
    (bs : List (List Nat)) (h : Heap) (hn : n0 ≤ h.nextRef) (ha : n0 ≤ arrRef) :
    n0 ≤ (enrichHeapGo f arrRef bs h).1.nextRef ∧
    (∀ r, r < n0 → (enrichHeapGo f arrRef bs h).1.objAt r = h.objAt r ∧
      (enrichHeapGo f arrRef bs h).1.arrAt r = h.arrAt r) ∧
    (∀ s ∈ (enrichHeapGo f arrRef bs h).2, n0 ≤ s) := by
  induction bs generalizing h with
  | nil => exact ⟨hn, fun r _ => ⟨rfl, rfl⟩, by simp [enrichHeapGo]⟩
  | cons b bs ih =>
    have hbatch := enrichHeapBatch_frame f arrRef n0 b h hn ha
    set h1 := enrichHeapBatch f arrRef h b with hh1
    have hsnapn : n0 ≤ ((allocArr h1 (h1.arrAt arrRef)).2).nextRef := by
      simp only [allocArr]
      omega
    have hrest := ih (allocArr h1 (h1.arrAt arrRef)).2 hsnapn
    have hun : enrichHeapGo f arrRef (b :: bs) h =
        ((enrichHeapGo f arrRef bs (allocArr h1 (h1.arrAt arrRef)).2).1,
          (allocArr h1 (h1.arrAt arrRef)).1 ::
            (enrichHeapGo f arrRef bs (allocArr h1 (h1.arrAt arrRef)).2).2) := rfl
    rw [hun]
    refine ⟨hrest.1, fun r hr => ?_, ?_⟩
    · have h1pres := hbatch.2 r hr
      have h2pres := hrest.2.1 r hr
      have hsnapPres : ((allocArr h1 (h1.arrAt arrRef)).2).objAt r = h1.objAt r ∧
          ((allocArr h1 (h1.arrAt arrRef)).2).arrAt r = h1.arrAt r := by
        constructor
        · rfl
        · simp only [allocArr]
          have : r ≠ h1.nextRef := by omega
          simp [this]
      exact ⟨h2pres.1.trans (hsnapPres.1.trans h1pres.1),
        h2pres.2.trans (hsnapPres.2.trans h1pres.2)⟩
    · intro s hs
      rcases List.mem_cons.mp hs with hs | hs
      · subst hs
        simpa [allocArr] using hbatch.1
      · exact hrest.2.2 s hs

theorem enrichWithMarketDataHeap_frame (f : CanvasItem → CanvasItem) (B : Nat)
    (h : Heap) (inputRef : Nat) :
    (∀ r, r < h.nextRef →
      (enrichWithMarketDataHeap f B h inputRef).1.objAt r = h.objAt r ∧
      (enrichWithMarketDataHeap f B h inputRef).1.arrAt r = h.arrAt r) ∧
    (∀ s ∈ (enrichWithMarketDataHeap f B h inputRef).2.2, h.nextRef ≤ s) := by
  have hcn : h.nextRef ≤ ((allocArr h (h.arrAt inputRef)).2).nextRef := by
    simp only [allocArr]
    omega
  have hgo := enrichHeapGo_frame f (allocArr h (h.arrAt inputRef)).1 h.nextRef
    (chunksOf B (List.range (h.arrAt inputRef).length))
    (allocArr h (h.arrAt inputRef)).2 hcn (le_refl _)
  have hun : enrichWithMarketDataHeap f B h inputRef =
      ((enrichHeapGo f (allocArr h (h.arrAt inputRef)).1
          (chunksOf B (List.range (h.arrAt inputRef).length))
          (allocArr h (h.arrAt inputRef)).2).1,
        (allocArr h (h.arrAt inputRef)).1,
        (enrichHeapGo f (allocArr h (h.arrAt inputRef)).1
          (chunksOf B (List.range (h.arrAt inputRef).length))
          (allocArr h (h.arrAt inputRef)).2).2) := rfl
  rw [hun]
  refine ⟨fun r hr => ?_, fun s hs => hgo.2.2 s hs⟩
  have hpres := hgo.2.1 r hr
  have hcopyPres : ((allocArr h (h.arrAt inputRef)).2).objAt r = h.objAt r ∧
      ((allocArr h (h.arrAt inputRef)).2).arrAt r = h.arrAt r := by
    constructor
    · rfl
    · simp only [allocArr]
      have : r ≠ h.nextRef := by omega
      simp [this]
  exact ⟨hpres.1.trans hcopyPres.1, hpres.2.trans hcopyPres.2⟩

/-- General specification of the batched enrichment run: snapshot count,
snapshot contents and final result, for any batch size `B > 0` and per-item
update `f`. -/
theorem enrichRun_spec (f : CanvasItem → CanvasItem) (B : Nat) (hB : 0 < B)
    (items : List CanvasItem) :
    (enrichGo f (chunksOf B items) []).1.length = (items.length + B - 1) / B ∧
    (∀ k, k < (items.length + B - 1) / B →
      (enrichGo f (chunksOf B items) []).1[k]? =
        some ((items.take ((k + 1) * B)).map f ++ items.drop ((k + 1) * B))) ∧
    (enrichGo f (chunksOf B items) []).2 = items.map f := by
  have hlen : (chunksOf B items).length = (items.length + B - 1) / B :=
    chunksOf_length B hB items
  refine ⟨?_, ?_, ?_⟩
  · rw [enrichGo_snapshots_length, hlen]
  · intro k hk
    rw [enrichGo_snapshot_get]
    rw [hlen]
    simp only [hk, if_true, List.nil_append]
    rw [chunksOf_take_flatten B hB items (k + 1), chunksOf_drop_flatten B hB items (k + 1)]
  · rw [enrichGo_result, chunksOf_flatten]
    simp

/-- Evaluation lemma: a nonempty list of at most `B` elements forms one chunk. -/
theorem chunksOf_short (B : Nat) (a : α) (l : List α) (h : l.length ≤ B - 1) :
    chunksOf B (a :: l) = [a :: l] := by
  rw [chunksOf_cons, List.take_of_length_le h, List.drop_of_length_le h, chunksOf_nil]

theorem enrichWithMarketDataRest_result (env : RestMarketEnv)
    (items : List CanvasItem) :
    (enrichWithMarketDataRest env items).2 = items.map (enrichItemRest env) :=
  (enrichRun_spec (enrichItemRest env) 4 (by omega) items).2.2

theorem enrichWithMarketDataSdk_result (env : SdkMarketEnv)
    (items : List CanvasItem) :
    (enrichWithMarketDataSdk env items).2 = items.map (enrichItemSdk env) :=
  (enrichRun_spec (enrichItemSdk env) 5 (by omega) items).2.2

theorem fetchBestOffer_paired (resp : RestResp OffersBody)
    (h : offerRespPaired resp) :
    (fetchBestOffer resp).orderHash.isSome =
      (fetchBestOffer resp).protocolAddress.isSome := by
  unfold fetchBestOffer
  cases resp with
  | netThrow => rfl
  | httpErr => rfl
  | ok body =>
    dsimp only
    cases hhead : body.offers.head? with
    | none => rfl
    | some offer =>
      dsimp only
      cases hval : offer.price_value with
      | none => rfl
      | some raw =>
        dsimp only
        exact h body rfl offer hhead (by rw [hval]; rfl)

theorem fetchBestListing_listed (resp : RestResp ListingsBody) :
    (fetchBestListing resp).isListed = true →
      (fetchBestListing resp).listPrice.isSome = true := by
  unfold fetchBestListing
  cases resp with
  | netThrow => intro h; simp at h
  | httpErr => intro h; simp at h
  | ok body =>
    dsimp only
    cases body.listings.head? with
    | none => intro h; simp at h
    | some listing =>
      dsimp only
      cases listing.price_value with
      | none => intro h; simp at h
      | some raw => intro _; rfl

theorem fetchTokenMarketData_listed (resp : SdkTokenResp) :
    (fetchTokenMarketData resp).isListed = true →
      (fetchTokenMarketData resp).listPrice.isSome = true := by
  unfold fetchTokenMarketData
  by_cases ho : resp.outerThrow
  · rw [if_pos ho]
    intro h
    simp at h
  · rw [if_neg ho]
    cases resp.listing with
    | thrown => intro h; simp at h
    | ok olst =>
      cases olst with
      | none => intro h; simp at h
      | some l =>
        dsimp only
        cases l.price_decimals with
        | none => intro h; simp at h
        | some d =>
          cases l.price_value with
          | none => intro h; simp at h
          | some raw => intro _; rfl

/-! ## Claim theorems -/

/-- C9: `disconnect()` sets the locally stored address to `null`, issues no
provider calls, and changes no other state (`error`, `isConnecting`). -/
theorem c9_disconnect_local_only (s : WalletState) :
    (disconnect s).1.address = none ∧
    (disconnect s).1.isConnecting = s.isConnecting ∧
    (disconnect s).1.error = s.error ∧
    (disconnect s).2 = [] :=
  ⟨rfl, rfl, rfl, rfl⟩

/-- C8: confirming "Accept" on an item whose `bestOfferOrderHash` is absent
(falsy) emits exactly the error toast "No valid offer found", performs no
network or wallet-provider call, and leaves the items state unchanged. -/
theorem c8_accept_guard_no_calls (env : AcceptEnv) (a : String)
    (item : CanvasItem) (items : List CanvasItem)
    (hhash : truthyStr item.bestOfferOrderHash = false) :
    handleAcceptConfirm env (some a) (some item) items =
      ([{ msg := "No valid offer found", isError := true }], [], items) := by
  unfold handleAcceptConfirm
  simp [hhash]

/-- Witness for C8 at a concrete item freshly created by the owned-token
fetch (its `bestOfferOrderHash` is absent). -/
theorem c8_accept_guard_no_calls_witness :
    handleAcceptConfirm acceptEnvOk (some "0xabc") (some (mkCanvasItem "5"))
        [mkCanvasItem "5"] =
      ([{ msg := "No valid offer found", isError := true }], [], [mkCanvasItem "5"]) :=
  c8_accept_guard_no_calls acceptEnvOk "0xabc" (mkCanvasItem "5") [mkCanvasItem "5"]
    (by decide)

/-- C2: when `eth_requestAccounts` succeeds and `eth_chainId` reports a chain
other than `0x2105`, `connect()` issues exactly one
`wallet_switchEthereumChain` request before resolving, and issues
`wallet_addEthereumChain` if and only if the switch request failed with error
code 4902. -/
theorem c2_connect_chain_switch (p : ProviderBehavior) (s : WalletState)
    (accounts : List String) (cid : String)
    (hacc : p.requestAccounts = .ok accounts) (hcid : p.chainId = .ok cid)
    (hne : cid ≠ BASE_CHAIN_ID) :
    ((connect (some p) s).2.count RpcMethod.switchChain = 1) ∧
    ((RpcMethod.addChain ∈ (connect (some p) s).2) ↔
      (∃ e, p.switchChain = .err e ∧ e.code = some 4902)) := by
  simp only [connect]
  rw [hacc, hcid]
  dsimp only
  rw [if_neg hne]
  cases hsw : p.switchChain with
  | ok u =>
    dsimp only
    refine ⟨by decide, ?_, ?_⟩
    · intro hmem
      exact absurd hmem (by decide)
    · rintro ⟨e, he, _⟩
      cases he
  | err se =>
    dsimp only
    by_cases hc : se.code = some 4902
    · rw [if_pos hc]
      cases had : p.addChain with
      | ok u =>
        dsimp only
        exact ⟨by decide, fun _ => ⟨se, rfl, hc⟩, fun _ => by decide⟩
      | err ae =>
        dsimp only
        exact ⟨by decide, fun _ => ⟨se, rfl, hc⟩, fun _ => by decide⟩
    · rw [if_neg hc]
      dsimp only
      refine ⟨by decide, ?_, ?_⟩
      · intro hmem
        exact absurd hmem (by decide)
      · rintro ⟨e, he, hec⟩
        cases he
        exact absurd hec hc

/-- Witness for C2: a provider on Ethereum mainnet whose switch request fails
with code 4902, so the chain is added. -/
theorem c2_connect_chain_switch_witness :
    ((connect (some provSwitch4902) initialWalletState).2.count
        RpcMethod.switchChain = 1) ∧
    ((RpcMethod.addChain ∈ (connect (some provSwitch4902) initialWalletState).2) ↔
      (∃ e, provSwitch4902.switchChain = .err e ∧ e.code = some 4902)) :=
  c2_connect_chain_switch provSwitch4902 initialWalletState ["0xabc"] "0x1"
    rfl rfl (by decide)

/-- C7 fails as stated: with a provider whose `wallet_switchEthereumChain`
request is rejected with code 4001 (user rejection), the switch request is
made and fails, yet `connect()` resolves with the `error` state still `null`
— the failure is not reported. -/
theorem c7_counterexample_silent_switch_failure :
    provSwitchRejected.switchChain =
      .err { code := some 4001, message := some "User rejected the request." } ∧
    (connect (some provSwitchRejected) initialWalletState).2 =
      [RpcMethod.requestAccounts, RpcMethod.chainId, RpcMethod.switchChain] ∧
    (connect (some provSwitchRejected) initialWalletState).1.error = none := by
  refine ⟨rfl, ?_, ?_⟩ <;> decide

/-- C7 amended: `connect()` never rejects (the model is a total function and
every branch below resolves), `isConnecting` is always cleared, and every
failure is reported through the `error` state as a nonempty string — except a
`wallet_switchEthereumChain` failure whose code is not 4902, which the inner
catch silently swallows, leaving `error` `null`. -/
theorem c7_connect_error_reporting_amended (prov : Option ProviderBehavior)
    (s : WalletState) :
    (prov = none →
      (connect prov s).1.error =
        some "No wallet found. Open in a crypto-enabled browser.") ∧
    (∀ p e, prov = some p → p.requestAccounts = .err e →
      (connect prov s).1.error = some (errMessageOr "Failed to connect" e)) ∧
    (∀ p accounts e, prov = some p → p.requestAccounts = .ok accounts →
      p.chainId = .err e →
      (connect prov s).1.error = some (errMessageOr "Failed to connect" e)) ∧
    (∀ p accounts cid se ae, prov = some p → p.requestAccounts = .ok accounts →
      p.chainId = .ok cid → cid ≠ BASE_CHAIN_ID → p.switchChain = .err se →
      se.code = some 4902 → p.addChain = .err ae →
      (connect prov s).1.error = some (errMessageOr "Failed to connect" ae)) ∧
    (∀ p accounts cid se, prov = some p → p.requestAccounts = .ok accounts →
      p.chainId = .ok cid → cid ≠ BASE_CHAIN_ID → p.switchChain = .err se →
      se.code ≠ some 4902 →
      (connect prov s).1.error = none) ∧
    ((connect prov s).1.isConnecting = false) ∧
    (∀ e, errMessageOr "Failed to connect" e ≠ "") := by
  refine ⟨?_, ?_, ?_, ?_, ?_, ?_, ?_⟩
  · rintro rfl
    rfl
  · rintro p e rfl herr
    simp only [connect]
    rw [herr]
  · rintro p accounts e rfl hacc herr
    simp only [connect]
    rw [hacc]
    dsimp only
    rw [herr]
  · rintro p accounts cid se ae rfl hacc hcid hne hsw hc had
    simp only [connect]
    rw [hacc]
    dsimp only
    rw [hcid]
    dsimp only
    rw [if_neg hne, hsw]
    dsimp only
    rw [if_pos hc, had]
  · rintro p accounts cid se rfl hacc hcid hne hsw hc
    simp only [connect]
    rw [hacc]
    dsimp only
    rw [hcid]
    dsimp only
    rw [if_neg hne, hsw]
    dsimp only
    rw [if_neg hc]
    by_cases hlen : accounts.length > 0
    · rw [if_pos hlen]
    · rw [if_neg hlen]
  · cases prov with
    | none => rfl
    | some p =>
      simp only [connect]
      cases hacc : p.requestAccounts with
      | err e => rfl
      | ok accounts =>
        dsimp only
        cases hcid : p.chainId with
        | err e => rfl
        | ok cid =>
          dsimp only
          by_cases hbase : cid = BASE_CHAIN_ID
          · rw [if_pos hbase]
          · rw [if_neg hbase]
            cases hsw : p.switchChain with
            | ok u => rfl
            | err se =>
              dsimp only
              by_cases hc : se.code = some 4902
              · rw [if_pos hc]
                cases had : p.addChain with
                | ok u => rfl
                | err ae => rfl
              · rw [if_neg hc]
  · intro e
    unfold errMessageOr
    cases hm : e.message with
    | none => decide
    | some m =>
      dsimp only
      by_cases hme : m.isEmpty
      · rw [if_pos hme]
        decide
      · rw [if_neg hme]
        intro heq
        subst heq
        exact hme rfl

/-- Witness for C7 (amended) at the no-provider input. -/
theorem c7_connect_error_reporting_amended_witness :
    (connect none initialWalletState).1.error =
      some "No wallet found. Open in a crypto-enabled browser." :=
  (c7_connect_error_reporting_amended none initialWalletState).1 rfl

/-- C3 fails as stated: the SDK variant of `enrichWithMarketData` copies the
offer's `order_hash` but never writes `bestOfferProtocolAddress`, so an item
updated by it can carry `bestOfferOrderHash` without
`bestOfferProtocolAddress`. -/
theorem c3_counterexample_sdk_missing_protocol :
    ((enrichWithMarketDataSdk envSdkOffer [mkCanvasItem "701"]).2[0]?.map
      (fun r => (r.bestOfferOrderHash, r.bestOfferProtocolAddress))) =
      some (some "0xoffer", none) := by
  rw [enrichWithMarketDataSdk_result]
  decide

/-- C3 amended: the `isListed → listPrice` half holds for every operation;
`bestOfferOrderHash`/`bestOfferProtocolAddress` are present together or not at
all for items from the initial owned-token fetch, for items updated by the
REST enrichment whenever the offer API delivers `order_hash` and
`protocol_address` together, and the invariant is preserved by the
listing-creation update — but not by the SDK enrichment, which never writes
the protocol address. -/
theorem c3_invariants_amended (env : RestMarketEnv) (senv : SdkMarketEnv)
    (items : List CanvasItem) (tokenId : String) (id : String) (price : ℚ) :
    (offerPairInv (mkCanvasItem tokenId) ∧ listedInv (mkCanvasItem tokenId)) ∧
    ((∀ t, offerRespPaired (env t).offers) →
      ∀ r ∈ (enrichWithMarketDataRest env items).2, offerPairInv r ∧ listedInv r) ∧
    (∀ r ∈ (enrichWithMarketDataSdk senv items).2, listedInv r) ∧
    ((∀ it ∈ items, offerPairInv it ∧ listedInv it) →
      ∀ it ∈ applyListingUpdate items id price, offerPairInv it ∧ listedInv it) := by
  refine ⟨⟨rfl, ?_⟩, ?_, ?_, ?_⟩
  · intro h
    cases h
  · intro hpaired r hr
    rw [enrichWithMarketDataRest_result] at hr
    rcases List.mem_map.mp hr with ⟨it, _, rfl⟩
    exact ⟨fetchBestOffer_paired _ (hpaired it.id), fetchBestListing_listed _⟩
  · intro r hr
    rw [enrichWithMarketDataSdk_result] at hr
    rcases List.mem_map.mp hr with ⟨it, _, rfl⟩
    exact fetchTokenMarketData_listed _
  · intro hin it hit
    unfold applyListingUpdate at hit
    rcases List.mem_map.mp hit with ⟨it0, hit0, rfl⟩
    by_cases hid : it0.id = id
    · rw [if_pos hid]
      refine ⟨(hin it0 hit0).1, fun _ => rfl⟩
    · rw [if_neg hid]
      exact hin it0 hit0

/-- Witness for C3 (amended): the REST enrichment of a single fresh item
under an environment whose per-token fetches throw satisfies both halves of
the invariant. -/
theorem c3_invariants_amended_witness :
    offerPairInv (enrichItemRest envRestNone (mkCanvasItem "701")) ∧
    listedInv (enrichItemRest envRestNone (mkCanvasItem "701")) :=
  (c3_invariants_amended envRestNone envSdkNone [mkCanvasItem "701"] "701" "701" 1).2.1
    (fun _ _ ho => nomatch ho)
    (enrichItemRest envRestNone (mkCanvasItem "701"))
    (by rw [enrichWithMarketDataRest_result]; exact List.mem_singleton.mpr rfl)

/-- C1: for N input items, `enrichWithMarketData` emits one progress snapshot
per batch — exactly ⌈N/4⌉ in the REST variant and ⌈N/5⌉ in the SDK variant
(`(N + B - 1) / B` in natural division); the k-th snapshot contains all N
items, the items of the first k+1 batches enriched and the rest untouched
(whence each snapshot extends the previous one); and the returned list is
every item enriched. -/
theorem c1_enrich_progress_snapshots (env : RestMarketEnv) (senv : SdkMarketEnv)
    (items : List CanvasItem) :
    ((enrichWithMarketDataRest env items).1.length = (items.length + 4 - 1) / 4) ∧
    (∀ k, k < (items.length + 4 - 1) / 4 →
      (enrichWithMarketDataRest env items).1[k]? =
        some ((items.take ((k + 1) * 4)).map (enrichItemRest env) ++
          items.drop ((k + 1) * 4))) ∧
    (∀ (k : Nat) (snap : List CanvasItem),
      (enrichWithMarketDataRest env items).1[k]? = some snap →
      snap.length = items.length) ∧
    ((enrichWithMarketDataRest env items).2 = items.map (enrichItemRest env)) ∧
    ((enrichWithMarketDataSdk senv items).1.length = (items.length + 5 - 1) / 5) ∧
    (∀ k, k < (items.length + 5 - 1) / 5 →
      (enrichWithMarketDataSdk senv items).1[k]? =
        some ((items.take ((k + 1) * 5)).map (enrichItemSdk senv) ++
          items.drop ((k + 1) * 5))) ∧
    (∀ (k : Nat) (snap : List CanvasItem),
      (enrichWithMarketDataSdk senv items).1[k]? = some snap →
      snap.length = items.length) ∧
    ((enrichWithMarketDataSdk senv items).2 = items.map (enrichItemSdk senv)) := by
  have hrest := enrichRun_spec (enrichItemRest env) 4 (by omega) items
  have hsdk := enrichRun_spec (enrichItemSdk senv) 5 (by omega) items
  have h1 : (enrichWithMarketDataRest env items).1.length =
      (items.length + 4 - 1) / 4 := hrest.1
  have h2 : ∀ k, k < (items.length + 4 - 1) / 4 →
      (enrichWithMarketDataRest env items).1[k]? =
        some ((items.take ((k + 1) * 4)).map (enrichItemRest env) ++
          items.drop ((k + 1) * 4)) := hrest.2.1
  have s1 : (enrichWithMarketDataSdk senv items).1.length =
      (items.length + 5 - 1) / 5 := hsdk.1
  have s2 : ∀ k, k < (items.length + 5 - 1) / 5 →
      (enrichWithMarketDataSdk senv items).1[k]? =
        some ((items.take ((k + 1) * 5)).map (enrichItemSdk senv) ++
          items.drop ((k + 1) * 5)) := hsdk.2.1
  refine ⟨h1, h2, ?_, hrest.2.2, s1, s2, ?_, hsdk.2.2⟩
  · intro k snap hsnap
    have hk : k < (items.length + 4 - 1) / 4 := by
      have hlt := (List.getElem?_eq_some_iff.mp hsnap).1
      rwa [h1] at hlt
    rw [h2 k hk] at hsnap
    cases hsnap
    simp only [List.length_append, List.length_map, List.length_take,
      List.length_drop]
    omega
  · intro k snap hsnap
    have hk : k < (items.length + 5 - 1) / 5 := by
      have hlt := (List.getElem?_eq_some_iff.mp hsnap).1
      rwa [s1] at hlt
    rw [s2 k hk] at hsnap
    cases hsnap
    simp only [List.length_append, List.length_map, List.length_take,
      List.length_drop]
    omega

/-- Witness for C1: two items form a single REST batch whose snapshot is the
fully enriched list. -/
theorem c1_enrich_progress_snapshots_witness :
    (enrichWithMarketDataRest envRestNone
        [mkCanvasItem "701", mkCanvasItem "703"]).1[0]? =
      some (([mkCanvasItem "701", mkCanvasItem "703"].take ((0 + 1) * 4)).map
          (enrichItemRest envRestNone) ++
        [mkCanvasItem "701", mkCanvasItem "703"].drop ((0 + 1) * 4)) :=
  (c1_enrich_progress_snapshots envRestNone envSdkNone
    [mkCanvasItem "701", mkCanvasItem "703"]).2.1 0 (by decide)

/-- C5: enrichment preserves length and order (output slot i is the input
item at slot i with only market fields replaced), leaves `id`, `day`,
`imageUrl` and `lastSale` unchanged, and within a batch the completion order
is irrelevant: any execution order covering each slot exactly once yields the
pointwise map (batches themselves are processed sequentially, cf. C1). -/
theorem c5_enrich_frame_and_order (env : RestMarketEnv) (senv : SdkMarketEnv)
    (items : List CanvasItem) :
    ((enrichWithMarketDataRest env items).2.length = items.length) ∧
    (∀ (i : Nat), (enrichWithMarketDataRest env items).2[i]? =
      (items[i]?).map (enrichItemRest env)) ∧
    ((enrichWithMarketDataSdk senv items).2.length = items.length) ∧
    (∀ (i : Nat), (enrichWithMarketDataSdk senv items).2[i]? =
      (items[i]?).map (enrichItemSdk senv)) ∧
    (∀ it, (enrichItemRest env it).id = it.id ∧
      (enrichItemRest env it).day = it.day ∧
      (enrichItemRest env it).imageUrl = it.imageUrl ∧
      (enrichItemRest env it).lastSale = it.lastSale) ∧
    (∀ it, (enrichItemSdk senv it).id = it.id ∧
      (enrichItemSdk senv it).day = it.day ∧
      (enrichItemSdk senv it).imageUrl = it.imageUrl ∧
      (enrichItemSdk senv it).lastSale = it.lastSale) ∧
    (∀ (batch : List CanvasItem) (order : List Nat),
      order.Perm (List.range batch.length) →
      runUpdates (enrichItemRest env) batch order =
        batch.map (enrichItemRest env)) ∧
    (∀ (batch : List CanvasItem) (order : List Nat),
      order.Perm (List.range batch.length) →
      runUpdates (enrichItemSdk senv) batch order =
        batch.map (enrichItemSdk senv)) := by
  refine ⟨?_, ?_, ?_, ?_, ?_, ?_, ?_, ?_⟩
  · rw [enrichWithMarketDataRest_result, List.length_map]
  · intro i
    rw [enrichWithMarketDataRest_result, List.getElem?_map]
  · rw [enrichWithMarketDataSdk_result, List.length_map]
  · intro i
    rw [enrichWithMarketDataSdk_result, List.getElem?_map]
  · exact fun it => ⟨rfl, rfl, rfl, rfl⟩
  · exact fun it => ⟨rfl, rfl, rfl, rfl⟩
  · exact fun batch order h => runUpdates_perm_eq_map _ batch order h
  · exact fun batch order h => runUpdates_perm_eq_map _ batch order h

/-- Witness for C5: a two-slot batch executed in reversed completion order
still yields the pointwise enrichment. -/
theorem c5_enrich_frame_and_order_witness :
    runUpdates (enrichItemRest envRestNone)
        [mkCanvasItem "701", mkCanvasItem "703"] [1, 0] =
      [mkCanvasItem "701", mkCanvasItem "703"].map (enrichItemRest envRestNone) :=
  (c5_enrich_frame_and_order envRestNone envSdkNone
    [mkCanvasItem "701", mkCanvasItem "703"]).2.2.2.2.2.2.1
    [mkCanvasItem "701", mkCanvasItem "703"] [1, 0] (by decide)

theorem fetchBestListing_found (body : ListingsBody) (listing : ListingJson)
    (raw : Nat) (hhead : body.listings.head? = some listing)
    (hval : listing.price_value = some raw) :
    fetchBestListing (.ok body) =
      { listPrice := some ((raw : ℚ) / 10 ^ listing.price_decimals.getD 18)
        isListed := true } := by
  unfold fetchBestListing
  dsimp only
  rw [hhead]
  dsimp only
  rw [hval]

theorem fetchBestListing_notFound (resp : RestResp ListingsBody)
    (h : resp = .netThrow ∨ resp = .httpErr ∨
      ∃ body, resp = .ok body ∧ (body.listings.head? = none ∨
        ∃ listing, body.listings.head? = some listing ∧
          listing.price_value = none)) :
    fetchBestListing resp = { listPrice := none, isListed := false } := by
  rcases h with rfl | rfl | ⟨body, rfl, hcase⟩
  · rfl
  · rfl
  · unfold fetchBestListing
    dsimp only
    rcases hcase with hnone | ⟨listing, hhead, hval⟩
    · rw [hnone]
    · rw [hhead]
      dsimp only
      rw [hval]

theorem fetchBestOffer_notFound (resp : RestResp OffersBody)
    (h : resp = .netThrow ∨ resp = .httpErr ∨
      ∃ body, resp = .ok body ∧ (body.offers.head? = none ∨
        ∃ offer, body.offers.head? = some offer ∧
          offer.price_value = none)) :
    fetchBestOffer resp =
      { bestOffer := 0, orderHash := none, protocolAddress := none } := by
  rcases h with rfl | rfl | ⟨body, rfl, hcase⟩
  · rfl
  · rfl
  · unfold fetchBestOffer
    dsimp only
    rcases hcase with hnone | ⟨offer, hhead, hval⟩
    · rw [hnone]
    · rw [hhead]
      dsimp only
      rw [hval]

/-- C4: per item processed by `enrichWithMarketData` (REST variant), a found
best listing at raw value `v` and `d` decimals yields
`listPrice = v / 10 ^ d` and `isListed = true`; an absent listing (thrown
fetch, non-ok response, empty listings array or missing value) yields
`listPrice = undefined`, `isListed = false`; an absent offer yields
`bestOffer = 0` — all without any exception (every branch returns a value).
Worked example: tokens 701 (best listing 0.025 ETH) and 703 (no listing)
enrich to `701.listPrice = 0.025 ∧ 701.isListed` and
`703.listPrice = undefined ∧ ¬703.isListed ∧ 703.bestOffer = 0`. -/
theorem c4_enrich_market_outcomes (env : RestMarketEnv) (items : List CanvasItem)
    (i : Nat) (item : CanvasItem) (hitem : items[i]? = some item) :
    ((enrichWithMarketDataRest env items).2[i]? = some (enrichItemRest env item)) ∧
    (∀ body listing raw, (env item.id).listings = .ok body →
      body.listings.head? = some listing → listing.price_value = some raw →
      (enrichItemRest env item).listPrice =
        some ((raw : ℚ) / 10 ^ listing.price_decimals.getD 18) ∧
      (enrichItemRest env item).isListed = true) ∧
    (((env item.id).listings = .netThrow ∨ (env item.id).listings = .httpErr ∨
      ∃ body, (env item.id).listings = .ok body ∧ (body.listings.head? = none ∨
        ∃ listing, body.listings.head? = some listing ∧
          listing.price_value = none)) →
      (enrichItemRest env item).listPrice = none ∧
      (enrichItemRest env item).isListed = false) ∧
    (((env item.id).offers = .netThrow ∨ (env item.id).offers = .httpErr ∨
      ∃ body, (env item.id).offers = .ok body ∧ (body.offers.head? = none ∨
        ∃ offer, body.offers.head? = some offer ∧
          offer.price_value = none)) →
      (enrichItemRest env item).bestOffer = 0) ∧
    (∃ r701 r703,
      (enrichWithMarketDataRest envExample
        [mkCanvasItem "701", mkCanvasItem "703"]).2[0]? = some r701 ∧
      (enrichWithMarketDataRest envExample
        [mkCanvasItem "701", mkCanvasItem "703"]).2[1]? = some r703 ∧
      r701.listPrice = some (25 / 1000 : ℚ) ∧ r701.isListed = true ∧
      r703.listPrice = none ∧ r703.isListed = false ∧ r703.bestOffer = 0) := by
  refine ⟨?_, ?_, ?_, ?_, ?_⟩
  · rw [enrichWithMarketDataRest_result, List.getElem?_map, hitem]
    rfl
  · intro body listing raw hresp hhead hval
    have hfl : fetchBestListing (env item.id).listings =
        { listPrice := some ((raw : ℚ) / 10 ^ listing.price_decimals.getD 18)
          isListed := true } := by
      rw [hresp]
      exact fetchBestListing_found body listing raw hhead hval
    constructor
    · show (fetchBestListing (env item.id).listings).listPrice = _
      rw [hfl]
    · show (fetchBestListing (env item.id).listings).isListed = true
      rw [hfl]
  · intro h
    have hfl : fetchBestListing (env item.id).listings =
        { listPrice := none, isListed := false } := fetchBestListing_notFound _ h
    constructor
    · show (fetchBestListing (env item.id).listings).listPrice = none
      rw [hfl]
    · show (fetchBestListing (env item.id).listings).isListed = false
      rw [hfl]
  · intro h
    have hfo : fetchBestOffer (env item.id).offers =
        { bestOffer := 0, orderHash := none, protocolAddress := none } :=
      fetchBestOffer_notFound _ h
    show (fetchBestOffer (env item.id).offers).bestOffer = 0
    rw [hfo]
  · refine ⟨enrichItemRest envExample (mkCanvasItem "701"),
      enrichItemRest envExample (mkCanvasItem "703"), ?_, ?_, ?_, rfl, rfl, rfl, rfl⟩
    · rw [enrichWithMarketDataRest_result]
      rfl
    · rw [enrichWithMarketDataRest_result]
      rfl
    · show (fetchBestListing (envExample (mkCanvasItem "701").id).listings).listPrice =
        some (25 / 1000 : ℚ)
      have hres : envExample (mkCanvasItem "701").id =
          { listings := .ok ⟨[⟨some 25000000000000000, some 18⟩]⟩
            offers := .ok ⟨[]⟩ } := rfl
      rw [hres, fetchBestListing_found ⟨[⟨some 25000000000000000, some 18⟩]⟩
        ⟨some 25000000000000000, some 18⟩ 25000000000000000 rfl rfl]
      norm_num

/-- Witness for C4 at the worked example's second token: the fetch that finds
nothing yields the no-listing defaults. -/
theorem c4_enrich_market_outcomes_witness :
    (enrichItemRest envExample (mkCanvasItem "703")).listPrice = none ∧
    (enrichItemRest envExample (mkCanvasItem "703")).isListed = false :=
  (c4_enrich_market_outcomes envExample [mkCanvasItem "701", mkCanvasItem "703"]
    1 (mkCanvasItem "703") rfl).2.2.1
    (Or.inr (Or.inr ⟨⟨[]⟩, rfl, Or.inl rfl⟩))

/-- C10: `enrichWithMarketData` does not mutate its input: every object and
array reference that existed before the call (in particular the input array
and all of its item objects) has unchanged contents afterwards, and every
snapshot passed to the progress callback is a freshly allocated array,
distinct from the input array — in both the REST and the SDK variant. -/
theorem c10_enrich_no_mutation (env : RestMarketEnv) (senv : SdkMarketEnv)
    (h : Heap) (inputRef : Nat) (hin : inputRef < h.nextRef) :
    (∀ r, r < h.nextRef →
      (enrichHeapRest env h inputRef).1.objAt r = h.objAt r ∧
      (enrichHeapRest env h inputRef).1.arrAt r = h.arrAt r) ∧
    (∀ s ∈ (enrichHeapRest env h inputRef).2.2, h.nextRef ≤ s ∧ s ≠ inputRef) ∧
    (∀ r, r < h.nextRef →
      (enrichHeapSdk senv h inputRef).1.objAt r = h.objAt r ∧
      (enrichHeapSdk senv h inputRef).1.arrAt r = h.arrAt r) ∧
    (∀ s ∈ (enrichHeapSdk senv h inputRef).2.2, h.nextRef ≤ s ∧ s ≠ inputRef) := by
  have hr := enrichWithMarketDataHeap_frame (enrichItemRest env) 4 h inputRef
  have hs := enrichWithMarketDataHeap_frame (enrichItemSdk senv) 5 h inputRef
  refine ⟨hr.1, fun s hsm => ?_, hs.1, fun s hsm => ?_⟩
  · have hge := hr.2 s hsm
    exact ⟨hge, by omega⟩
  · have hge := hs.2 s hsm
    exact ⟨hge, by omega⟩

/-- Witness for C10 on a concrete two-item heap: the first input object is
unchanged by the REST enrichment. -/
theorem c10_enrich_no_mutation_witness :
    (enrichHeapRest envRestNone heapTwoItems 0).1.objAt 1 = heapTwoItems.objAt 1 ∧
    (enrichHeapRest envRestNone heapTwoItems 0).1.arrAt 1 = heapTwoItems.arrAt 1 :=
  (c10_enrich_no_mutation envRestNone envSdkNone heapTwoItems 0 (by decide)).1
    1 (by decide)

theorem getD_zero_of_ne_nil (l : List α) (d : α) (h : l ≠ []) :
    l.getD 0 d = l.headD d := by
  cases l with
  | nil => exact absurd rfl h
  | cons a l => rfl

theorem restAccCount_cons (srv : NftRequest → NftPage) (r : NftRequest)
    (reqs : List NftRequest) :
    restAccCount srv (r :: reqs) =
      (restPageItems srv r).length + restAccCount srv reqs := by
  simp [restAccCount]

/-- Full characterization of the REST pagination loop on a successful run:
the request trace is nonempty, every request carries `limit=200` and
`collection=basepaint`, the first request carries the starting cursor, every
consumed page was ok, the items are exactly the pages' tokens in order, a
further request is issued exactly while the previous page had a truthy `next`
cursor and fewer than 500 results had accumulated (its cursor being that
`next`), and the loop only stopped with a pending cursor if the cap was
reached. -/
theorem fetchNFTsByOwnerGo_spec (srv : NftRequest → NftPage) :
    ∀ (fuel : Nat) (cursor : Option String) (acc : List CanvasItem)
      (items : List CanvasItem) (reqs : List NftRequest),
    fetchNFTsByOwnerGo srv fuel cursor acc = some (.ok (items, reqs)) →
    reqs ≠ [] ∧
    (∀ r ∈ reqs, r.limit = 200 ∧ r.collection = "basepaint") ∧
    (reqs.headD default).next = cursor ∧
    (∀ r ∈ reqs, (srv r).ok = true) ∧
    items = acc ++ reqs.flatMap (restPageItems srv) ∧
    (∀ j, j + 1 < reqs.length →
      truthyStr (srv (reqs.getD j default)).next = true ∧
      acc.length + restAccCount srv (reqs.take (j + 1)) < 500 ∧
      (reqs.getD (j + 1) default).next = (srv (reqs.getD j default)).next) ∧
    (truthyStr (srv (reqs.getD (reqs.length - 1) default)).next = true →
      500 ≤ acc.length + restAccCount srv reqs) := by
  intro fuel
  induction fuel with
  | zero =>
    intro cursor acc items reqs h
    simp [fetchNFTsByOwnerGo] at h
  | succ fuel ih =>
    intro cursor acc items reqs h
    rw [fetchNFTsByOwnerGo] at h
    set req : NftRequest := { limit := 200, collection := "basepaint", next := cursor }
      with hreq
    have hpage : restPageItems srv req =
        (srv req).nfts.map (fun n => mkCanvasItem n.identifier) := rfl
    dsimp only at h
    split at h
    · simp at h
    · rename_i hok
      have hok' : (srv req).ok = true := by
        revert hok
        cases (srv req).ok <;> simp
      have hlenacc : (acc ++ (srv req).nfts.map
          (fun n => mkCanvasItem n.identifier)).length =
          acc.length + (restPageItems srv req).length := by
        rw [hpage]
        simp
      split at h
      · rename_i hcond
        have hcond' := hcond
        rw [Bool.and_eq_true, decide_eq_true_iff] at hcond'
        split at h
        · exact absurd h (by simp)
        · simp at h
        · rename_i its rs hrec
          rw [Option.some_inj, Except.ok.injEq, Prod.mk.injEq] at h
          obtain ⟨hits, hreqs⟩ := h
          subst hreqs
          subst hits
          obtain ⟨hne', hparams', hhead', hokall', hitems', hstep', hlast'⟩ :=
            ih _ _ _ _ hrec
          refine ⟨by simp, ?_, ?_, ?_, ?_, ?_, ?_⟩
          · intro r hr
            rcases List.mem_cons.mp hr with rfl | hr
            · exact ⟨rfl, rfl⟩
            · exact hparams' r hr
          · rw [List.headD_cons, hreq]
          · intro r hr
            rcases List.mem_cons.mp hr with rfl | hr
            · exact hok'
            · exact hokall' r hr
          · rw [hitems', List.flatMap_cons, List.append_assoc, hpage]
          · intro j hj
            cases j with
            | zero =>
              refine ⟨hcond'.1, ?_, ?_⟩
              · rw [List.take_succ_cons, List.take_zero, restAccCount_cons]
                simp only [restAccCount, List.map_nil, List.sum_nil, Nat.add_zero]
                rw [hlenacc] at hcond'
                omega
              · rw [List.getD_cons_succ, List.getD_cons_zero,
                  getD_zero_of_ne_nil rs default hne']
                exact hhead'
            | succ j =>
              have hj' : j + 1 < rs.length := by
                simp only [List.length_cons] at hj
                omega
              obtain ⟨h1, h2, h3⟩ := hstep' j hj'
              refine ⟨by rwa [List.getD_cons_succ], ?_, ?_⟩
              · rw [List.take_succ_cons, restAccCount_cons]
                rw [hlenacc] at h2
                omega
              · rw [List.getD_cons_succ, List.getD_cons_succ]
                exact h3
          · intro htr
            have hlen : rs.length - 1 + 1 = rs.length :=
              Nat.succ_pred_eq_of_pos (List.length_pos.mpr hne')
            have hidx : (req :: rs).getD ((req :: rs).length - 1) default =
                rs.getD (rs.length - 1) default := by
              cases rs with
              | nil => exact absurd rfl hne'
              | cons r0 rs' =>
                simp [List.getD_cons_succ, List.length_cons]
            rw [hidx] at htr
            have hge := hlast' htr
            rw [hlenacc] at hge
            rw [restAccCount_cons]
            omega
      · rename_i hcond
        rw [Option.some_inj, Except.ok.injEq, Prod.mk.injEq] at h
        obtain ⟨hits, hreqs⟩ := h
        subst hreqs
        subst hits
        refine ⟨by simp, ?_, ?_, ?_, ?_, ?_, ?_⟩
        · intro r hr
          rcases List.mem_cons.mp hr with rfl | hr
          · exact ⟨rfl, rfl⟩
          · simp at hr
        · rw [List.headD_cons, hreq]
        · intro r hr
          rcases List.mem_cons.mp hr with rfl | hr
          · exact hok'
          · simp at hr
        · rw [List.flatMap_cons, List.flatMap_nil, List.append_nil, hpage]
        · intro j hj
          simp at hj
        · intro htr
          have htr' : truthyStr (srv req).next = true := by simpa using htr
          rw [restAccCount_cons]
          simp only [restAccCount, List.map_nil, List.sum_nil, Nat.add_zero]
          by_cases hlt : (acc ++ (srv req).nfts.map
              (fun n => mkCanvasItem n.identifier)).length < 500
          · refine absurd ?_ hcond
            rw [Bool.and_eq_true, decide_eq_true_iff]
            exact ⟨htr', hlt⟩
          · rw [hlenacc] at hlt
            omega

theorem sdkAccCount_cons (srv : SdkNftRequest → SdkResp NftPage)
    (r : SdkNftRequest) (reqs : List SdkNftRequest) :
    sdkAccCount srv (r :: reqs) =
      (sdkPageItems srv r).length + sdkAccCount srv reqs := by
  simp [sdkAccCount]

/-- Full characterization of the SDK pagination loop on a successful run:
mirror of `fetchNFTsByOwnerGo_spec` with page size 50 and cap 200, the items
being the client-side collection-filtered tokens of the consumed pages. -/
theorem fetchOwnedBasePaintsGo_spec (srv : SdkNftRequest → SdkResp NftPage) :
    ∀ (fuel : Nat) (cursor : Option String) (acc : List CanvasItem)
      (items : List CanvasItem) (reqs : List SdkNftRequest),
    fetchOwnedBasePaintsGo srv fuel cursor acc = some (.ok (items, reqs)) →
    reqs ≠ [] ∧
    (∀ r ∈ reqs, r.limit = 50) ∧
    (reqs.headD default).next = cursor ∧
    (∀ r ∈ reqs, ∃ page, srv r = .ok page) ∧
    items = acc ++ reqs.flatMap (sdkPageItems srv) ∧
    (∀ j, j + 1 < reqs.length →
      truthyStr (sdkRespPage (srv (reqs.getD j default))).next = true ∧
      acc.length + sdkAccCount srv (reqs.take (j + 1)) < 200 ∧
      (reqs.getD (j + 1) default).next =
        (sdkRespPage (srv (reqs.getD j default))).next) ∧
    (truthyStr (sdkRespPage (srv (reqs.getD (reqs.length - 1) default))).next
        = true →
      200 ≤ acc.length + sdkAccCount srv reqs) := by
  intro fuel
  induction fuel with
  | zero =>
    intro cursor acc items reqs h
    simp [fetchOwnedBasePaintsGo] at h
  | succ fuel ih =>
    intro cursor acc items reqs h
    rw [fetchOwnedBasePaintsGo] at h
    set req : SdkNftRequest := { limit := 50, next := cursor } with hreq
    cases hsrv : srv req with
    | thrown =>
      rw [hsrv] at h
      simp at h
    | ok page =>
      rw [hsrv] at h
      dsimp only at h
      have hpage : sdkPageItems srv req =
          (page.nfts.filter isBasePaintNft).map (fun n => mkCanvasItem n.identifier) := by
        unfold sdkPageItems
        rw [hsrv]
        rfl
      have hrp : sdkRespPage (srv req) = page := by
        rw [hsrv]
        rfl
      have hlenacc : (acc ++ (page.nfts.filter isBasePaintNft).map
          (fun n => mkCanvasItem n.identifier)).length =
          acc.length + (sdkPageItems srv req).length := by
        rw [hpage]
        simp
      split at h
      · rename_i hcond
        have hcond' := hcond
        rw [Bool.and_eq_true, decide_eq_true_iff] at hcond'
        split at h
        · exact absurd h (by simp)
        · simp at h
        · rename_i its rs hrec
          rw [Option.some_inj, Except.ok.injEq, Prod.mk.injEq] at h
          obtain ⟨hits, hreqs⟩ := h
          subst hreqs
          subst hits
          obtain ⟨hne', hparams', hhead', hokall', hitems', hstep', hlast'⟩ :=
            ih _ _ _ _ hrec
          refine ⟨by simp, ?_, ?_, ?_, ?_, ?_, ?_⟩
          · intro r hr
            rcases List.mem_cons.mp hr with rfl | hr
            · rfl
            · exact hparams' r hr
          · rw [List.headD_cons, hreq]
          · intro r hr
            rcases List.mem_cons.mp hr with rfl | hr
            · exact ⟨page, hsrv⟩
            · exact hokall' r hr
          · rw [hitems', List.flatMap_cons, List.append_assoc, hpage]
          · intro j hj
            cases j with
            | zero =>
              refine ⟨by rw [List.getD_cons_zero, hrp]; exact hcond'.1, ?_, ?_⟩
              · rw [List.take_succ_cons, List.take_zero, sdkAccCount_cons]
                simp only [sdkAccCount, List.map_nil, List.sum_nil, Nat.add_zero]
                rw [hlenacc] at hcond'
                omega
              · rw [List.getD_cons_succ, List.getD_cons_zero,
                  getD_zero_of_ne_nil rs default hne', hrp]
                exact hhead'
            | succ j =>
              have hj' : j + 1 < rs.length := by
                simp only [List.length_cons] at hj
                omega
              obtain ⟨h1, h2, h3⟩ := hstep' j hj'
              refine ⟨by rwa [List.getD_cons_succ], ?_, ?_⟩
              · rw [List.take_succ_cons, sdkAccCount_cons]
                rw [hlenacc] at h2
                omega
              · rw [List.getD_cons_succ, List.getD_cons_succ]
                exact h3
          · intro htr
            have hidx : (req :: rs).getD ((req :: rs).length - 1) default =
                rs.getD (rs.length - 1) default := by
              cases rs with
              | nil => exact absurd rfl hne'
              | cons r0 rs' =>
                simp [List.getD_cons_succ, List.length_cons]
            rw [hidx] at htr
            have hge := hlast' htr
            rw [hlenacc] at hge
            rw [sdkAccCount_cons]
            omega
      · rename_i hcond
        rw [Option.some_inj, Except.ok.injEq, Prod.mk.injEq] at h
        obtain ⟨hits, hreqs⟩ := h
        subst hreqs
        subst hits
        refine ⟨by simp, ?_, ?_, ?_, ?_, ?_, ?_⟩
        · intro r hr
          rcases List.mem_cons.mp hr with rfl | hr
          · rfl
          · simp at hr
        · rw [List.headD_cons, hreq]
        · intro r hr
          rcases List.mem_cons.mp hr with rfl | hr
          · exact ⟨page, hsrv⟩
          · simp at hr
        · rw [List.flatMap_cons, List.flatMap_nil, List.append_nil, hpage]
        · intro j hj
          simp at hj
        · intro htr
          have htr' : truthyStr page.next = true := by
            have := htr
            rw [show ([req].getD ([req].length - 1) default) = req by simp, hrp] at this
            exact this
          rw [sdkAccCount_cons]
          simp only [sdkAccCount, List.map_nil, List.sum_nil, Nat.add_zero]
          by_cases hlt : (acc ++ (page.nfts.filter isBasePaintNft).map
              (fun n => mkCanvasItem n.identifier)).length < 200
          · refine absurd ?_ hcond
            rw [Bool.and_eq_true, decide_eq_true_iff]
            exact ⟨htr', hlt⟩
          · rw [hlenacc] at hlt
            omega

/-- C6: the owned-token fetch paginates with a fixed page size (200 REST, 50
SDK); a further page request is issued exactly when the previous response
carried a (truthy) next cursor — which becomes the new request's cursor — and
fewer results than the cap (500 REST, 200 SDK) had accumulated; and the
returned list consists exactly of the tokens of the consumed pages: for the
REST variant these come from requests scoped to `collection=basepaint` (the
API performs the filtering, so if every page honors the filter the result
does), while the SDK variant filters client-side to the BasePaint contract. -/
theorem c6_owned_token_pagination (srv : NftRequest → NftPage)
    (ssrv : SdkNftRequest → SdkResp NftPage) (fuel sfuel : Nat)
    (items sitems : List CanvasItem) (reqs : List NftRequest)
    (sreqs : List SdkNftRequest) :
    (fetchNFTsByOwner srv fuel = some (.ok (items, reqs)) →
      reqs ≠ [] ∧
      (∀ r ∈ reqs, r.limit = 200 ∧ r.collection = "basepaint") ∧
      items = reqs.flatMap (restPageItems srv) ∧
      (∀ j, j + 1 < reqs.length →
        truthyStr (srv (reqs.getD j default)).next = true ∧
        restAccCount srv (reqs.take (j + 1)) < 500 ∧
        (reqs.getD (j + 1) default).next = (srv (reqs.getD j default)).next) ∧
      (truthyStr (srv (reqs.getD (reqs.length - 1) default)).next = true →
        500 ≤ restAccCount srv reqs) ∧
      (∀ (P : NftJson → Prop), (∀ r ∈ reqs, ∀ n ∈ (srv r).nfts, P n) →
        ∀ it ∈ items, ∃ n, P n ∧ it = mkCanvasItem n.identifier)) ∧
    (fetchOwnedBasePaints ssrv sfuel = some (.ok (sitems, sreqs)) →
      sreqs ≠ [] ∧
      (∀ r ∈ sreqs, r.limit = 50) ∧
      sitems = sreqs.flatMap (sdkPageItems ssrv) ∧
      (∀ j, j + 1 < sreqs.length →
        truthyStr (sdkRespPage (ssrv (sreqs.getD j default))).next = true ∧
        sdkAccCount ssrv (sreqs.take (j + 1)) < 200 ∧
        (sreqs.getD (j + 1) default).next =
          (sdkRespPage (ssrv (sreqs.getD j default))).next) ∧
      (truthyStr (sdkRespPage (ssrv (sreqs.getD (sreqs.length - 1) default))).next
          = true →
        200 ≤ sdkAccCount ssrv sreqs) ∧
      (∀ it ∈ sitems, ∃ n, isBasePaintNft n = true ∧
        it = mkCanvasItem n.identifier)) := by
  constructor
  · intro h
    obtain ⟨hne, hparams, _, _, hitems, hstep, hlast⟩ :=
      fetchNFTsByOwnerGo_spec srv fuel none [] items reqs h
    have hitems' : items = reqs.flatMap (restPageItems srv) := by
      simpa using hitems
    refine ⟨hne, hparams, hitems', ?_, ?_, ?_⟩
    · intro j hj
      obtain ⟨h1, h2, h3⟩ := hstep j hj
      exact ⟨h1, by simpa using h2, h3⟩
    · intro htr
      have := hlast htr
      simpa using this
    · intro P hP it hit
      rw [hitems'] at hit
      rcases List.mem_flatMap.mp hit with ⟨r, hr, hitr⟩
      rcases List.mem_map.mp hitr with ⟨n, hn, rfl⟩
      exact ⟨n, hP r hr n hn, rfl⟩
  · intro h
    obtain ⟨hne, hparams, _, _, hitems, hstep, hlast⟩ :=
      fetchOwnedBasePaintsGo_spec ssrv sfuel none [] sitems sreqs h
    have hitems' : sitems = sreqs.flatMap (sdkPageItems ssrv) := by
      simpa using hitems
    refine ⟨hne, hparams, hitems', ?_, ?_, ?_⟩
    · intro j hj
      obtain ⟨h1, h2, h3⟩ := hstep j hj
      exact ⟨h1, by simpa using h2, h3⟩
    · intro htr
      have := hlast htr
      simpa using this
    · intro it hit
      rw [hitems'] at hit
      rcases List.mem_flatMap.mp hit with ⟨r, hr, hitr⟩
      rcases List.mem_map.mp hitr with ⟨n, hn, rfl⟩
      exact ⟨n, (List.mem_filter.mp hn).2, rfl⟩

/-- Witness for C6: a single-page server produces exactly that page's token
via one 200-limit basepaint-scoped request. -/
theorem c6_owned_token_pagination_witness :
    [mkCanvasItem "701"] =
      [({ limit := 200, collection := "basepaint", next := none } : NftRequest)].flatMap
        (restPageItems srvOnePage) :=
  ((c6_owned_token_pagination srvOnePage srvSdkOnePage 1 1 [mkCanvasItem "701"]
      [mkCanvasItem "701"]
      [{ limit := 200, collection := "basepaint", next := none }]
      [{ limit := 50, next := none }]).1 rfl).2.2.1

end BPTracker
